import Mathlib

/-!
Verification of the `JsonValue` data model of `src/src/value.rs`.

The Rust enum `JsonValue` is embedded as a Lean inductive. Modelling
choices, each noted at the definition it concerns:
  * `BTreeMap<String, JsonValue>` is modelled as an association list kept
    sorted by key in strictly increasing order, which is how a B-tree map
    presents its entries; `btreeInsert`/`btreeGet`/`btreeContains` model
    `insert`/`get`/`contains_key`.
  * `f64` is modelled by `F64`: finite values as rationals (every finite
    double is a rational number), the negative zero, the two infinities and
    a single NaN (NaN payload bits are unobservable through this file's
    operations). `F64.ieeeEq` is IEEE-754 `==`, which the derived
    `PartialEq` invokes on `Number` payloads: NaN is unequal to everything,
    itself included, and `-0.0 == 0.0`.
  * Rust's in-place mutation through `&mut self` is modelled by state
    passing: a mutating method returns the new value of `self` paired with
    its return value. A returned `&mut` reference is modelled by the value
    it currently points at.
  * The generic `T: Into<JsonValue>` parameters of `is`/`put`/`push` are
    instantiated at `T = JsonValue`, where `Into` is the identity.
-/

namespace RustJson

/-- Rust's `String`/`&str` key and payload type. An abbreviation is needed
because inside the `JsonValue` namespace the constructor `JsonValue.String`
shadows the ambient `String` type. -/
abbrev Text : Type := String

/-- Model of Rust's `f64` (the `Number` payload, src/src/value.rs line 8) at
the level of detail its derived `PartialEq` observes: a finite value
identified by its (rational) numeric value — `finite 0` being `+0.0` — the
negative zero, the two infinities, and a single NaN standing for every NaN
bit pattern, since no operation of value.rs distinguishes NaN payloads. -/
inductive F64 where
  | finite (q : ℚ)
  | negZero
  | inf
  | negInf
  | nan
deriving DecidableEq, Repr

/-- Whether the value is a NaN. -/
def F64.isNaN : F64 → Bool
  | .nan => true
  | _ => false

/-- IEEE-754 `==` on `f64`, as `f64::eq` implements it and as the derived
`PartialEq` of `JsonValue` invokes it on `Number` payloads: NaN compares
unequal to everything including itself, `-0.0` equals `0.0`, every other
value compares by numeric value. -/
def F64.ieeeEq : F64 → F64 → Bool
  | .nan, _ => false
  | _, .nan => false
  | .negZero, .negZero => true
  | .negZero, .finite b => decide (b = 0)
  | .finite a, .negZero => decide (a = 0)
  | .finite a, .finite b => decide (a = b)
  | .inf, .inf => true
  | .negInf, .negInf => true
  | _, _ => false

/-- The six-variant enum `JsonValue` (src/src/value.rs lines 5-13). -/
inductive JsonValue where
  | String  (s : String)
  | Number  (x : F64)
  | Boolean (b : Bool)
  | Null
  | Object  (entries : List (String × JsonValue))
  | Array   (elems : List JsonValue)

/-- Modelled from the spec: the error taxonomy of §7 (`WrongType` carrying the
expected variant name, `Undefined` carrying the key, `ArrayIndexOutOfBounds`).
The `JsonError` type itself lives outside `src/`; `value.rs` only invokes the
constructors `JsonError::wrong_type`, `JsonError::undefined` and
`JsonError::ArrayIndexOutOfBounds`. -/
inductive JsonError where
  | WrongType (expected : String)
  | Undefined (key : String)
  | ArrayIndexOutOfBounds
deriving DecidableEq, Repr

/-- `JsonError::wrong_type(name)` smart constructor. -/
def JsonError.wrong_type (expected : String) : JsonError :=
  JsonError.WrongType expected

/-- `JsonError::undefined(key)` smart constructor. -/
def JsonError.undefined (key : String) : JsonError :=
  JsonError.Undefined key

/-- `JsonResult<T>` from the crate root: `Result<T, JsonError>`. -/
abbrev JsonResult (α : Type) := Except JsonError α

mutual

/-- The derived `PartialEq` of src/src/value.rs line 5: variant tags must
agree and payloads compare recursively — `Number` payloads by IEEE `==`
(`F64.ieeeEq`), so `beq` is not reflexive at NaN. -/
def JsonValue.beq : JsonValue → JsonValue → Bool
  | .String a,  .String b  => a == b
  | .Number a,  .Number b  => F64.ieeeEq a b
  | .Boolean a, .Boolean b => a == b
  | .Null,      .Null      => true
  | .Object a,  .Object b  => JsonValue.beqEntries a b
  | .Array a,   .Array b   => JsonValue.beqList a b
  | _,          _          => false

/-- Pointwise equality of object entry lists (key and value). -/
def JsonValue.beqEntries : List (Text × JsonValue) → List (Text × JsonValue) → Bool
  | [], [] => true
  | (k, v) :: t, (k', v') :: t' =>
      k == k' && JsonValue.beq v v' && JsonValue.beqEntries t t'
  | _, _ => false

/-- Pointwise equality of array element lists. -/
def JsonValue.beqList : List JsonValue → List JsonValue → Bool
  | [], [] => true
  | v :: t, v' :: t' => JsonValue.beq v v' && JsonValue.beqList t t'
  | _, _ => false

end

instance : BEq JsonValue := ⟨JsonValue.beq⟩

/-! ### The key order of `BTreeMap<String, JsonValue>`

`BTreeMap` keeps its entries sorted by the total order on keys; for Rust
strings that order is lexicographic. It is spelled out here on `Char` code
points (rather than through Mathlib's `String` order instance) so that it
evaluates on concrete keys by `decide`/`rfl`. -/

/-- Lexicographic comparison of character lists. -/
def ltChars : List Char → List Char → Bool
  | [], [] => false
  | [], _ :: _ => true
  | _ :: _, [] => false
  | c :: cs, d :: ds => if c < d then true else if d < c then false else ltChars cs ds

/-- The key order used by the `BTreeMap` model: lexicographic on the
characters of the key. -/
def keyLt (a b : Text) : Bool := ltChars a.data b.data

/-! ### The `BTreeMap<String, JsonValue>` model

An association list kept sorted by `keyLt` in strictly increasing key order,
which is the order a B-tree map presents and stores its entries in. -/

/-- `BTreeMap::get`: the value stored under `key`, if any. -/
def btreeGet (key : Text) : List (Text × JsonValue) → Option JsonValue
  | [] => none
  | (k, v) :: rest => if key = k then some v else btreeGet key rest

/-- `BTreeMap::insert`: store `value` under `key`, keeping the entries sorted
by `keyLt` and the keys unique (an existing key is overwritten in place). -/
def btreeInsert (key : Text) (value : JsonValue) :
    List (Text × JsonValue) → List (Text × JsonValue)
  | [] => [(key, value)]
  | (k, v) :: rest =>
      if keyLt key k then (key, value) :: (k, v) :: rest
      else if key = k then (key, value) :: rest
      else (k, v) :: btreeInsert key value rest

/-- `BTreeMap::contains_key`. -/
def btreeContains (key : Text) (m : List (Text × JsonValue)) : Bool :=
  (btreeGet key m).isSome

/-- The invariant every map reachable through the `JsonValue` API satisfies:
keys strictly increase along the entry list (so in particular are unique). -/
def SortedKeys (m : List (Text × JsonValue)) : Prop :=
  List.Pairwise (fun a b => keyLt a.1 b.1 = true) m

/-- The number of entries of `m` stored under `key`. -/
def countKey (key : Text) (m : List (Text × JsonValue)) : Nat :=
  List.countP (fun e => e.1 == key) m

/-! ### The `JsonValue` API of src/src/value.rs

Rust's in-place mutation through `&mut self` is modelled by state passing:
each mutating method returns the new value of `self` paired with the method's
return value, and a returned `&mut` reference is modelled by the value it
points at. -/

/-- `static NULL: JsonValue = JsonValue::Null` (line 15), the process-wide
constant returned by the non-failing indexed reads. -/
def NULL : JsonValue := JsonValue.Null

/-- `JsonValue::new_object` (lines 20-22). -/
def JsonValue.new_object : JsonValue := JsonValue.Object []

/-- `JsonValue::new_array` (lines 26-28). -/
def JsonValue.new_array : JsonValue := JsonValue.Array []

/-- `JsonValue::is` (lines 31-33): `*self == other.into()`, with the generic
`T: Into<JsonValue>` instantiated at `T = JsonValue` (identity conversion)
and `==` the derived structural `PartialEq`. -/
def JsonValue.is (self other : JsonValue) : Bool := JsonValue.beq self other

/-- `JsonValue::is_string` (lines 35-40). -/
def JsonValue.is_string : JsonValue → Bool
  | .String _ => true
  | _ => false

/-- `JsonValue::as_string` (lines 42-47). -/
def JsonValue.as_string : JsonValue → JsonResult Text
  | .String value => .ok value
  | _ => .error (JsonError.wrong_type "String")

/-- `JsonValue::is_number` (lines 49-54). -/
def JsonValue.is_number : JsonValue → Bool
  | .Number _ => true
  | _ => false

/-- `JsonValue::as_number` (lines 56-61). -/
def JsonValue.as_number : JsonValue → JsonResult F64
  | .Number value => .ok value
  | _ => .error (JsonError.wrong_type "Number")

/-- `JsonValue::is_boolean` (lines 63-68). -/
def JsonValue.is_boolean : JsonValue → Bool
  | .Boolean _ => true
  | _ => false

/-- `JsonValue::is_true` (lines 70-76), deprecated since 0.3.1. -/
def JsonValue.is_true : JsonValue → Bool
  | .Boolean true => true
  | _ => false

/-- `JsonValue::is_false` (lines 78-84), deprecated since 0.3.1. -/
def JsonValue.is_false : JsonValue → Bool
  | .Boolean false => true
  | _ => false

/-- `JsonValue::as_boolean` (lines 86-91). -/
def JsonValue.as_boolean : JsonValue → JsonResult Bool
  | .Boolean value => .ok value
  | _ => .error (JsonError.wrong_type "Boolean")

/-- `JsonValue::is_null` (lines 93-98). -/
def JsonValue.is_null : JsonValue → Bool
  | .Null => true
  | _ => false

/-- `JsonValue::is_object` (lines 100-105). -/
def JsonValue.is_object : JsonValue → Bool
  | .Object _ => true
  | _ => false

/-- `JsonValue::is_array` (lines 107-112). -/
def JsonValue.is_array : JsonValue → Bool
  | .Array _ => true
  | _ => false

/-- `JsonValue::put` (lines 116-125): on an `Object`, insert or overwrite
`key` with `value` and return `Ok(())`; on any other variant, leave `self`
unchanged and return `Err(WrongType("Object"))`. -/
def JsonValue.put (self : JsonValue) (key : Text) (value : JsonValue) :
    JsonValue × JsonResult Unit :=
  match self with
  | .Object btree => (.Object (btreeInsert key value btree), .ok ())
  | _ => (self, .error (JsonError.wrong_type "Object"))

/-- `JsonValue::get` (lines 129-137). -/
def JsonValue.get (self : JsonValue) (key : Text) : JsonResult JsonValue :=
  match self with
  | .Object btree =>
      match btreeGet key btree with
      | some value => .ok value
      | none => .error (JsonError.undefined key)
  | _ => .error (JsonError.wrong_type "Object")

/-- `JsonValue::get_mut` (lines 141-149): same logic as `get`; the method
itself never mutates `self`, so the state component is `self` unchanged. -/
def JsonValue.get_mut (self : JsonValue) (key : Text) :
    JsonValue × JsonResult JsonValue :=
  match self with
  | .Object btree =>
      match btreeGet key btree with
      | some value => (self, .ok value)
      | none => (self, .error (JsonError.undefined key))
  | _ => (self, .error (JsonError.wrong_type "Object"))

/-- `Result::unwrap` on a `JsonResult<&mut JsonValue>`. The `Null` default
models the unreachable panic branch: at every call site below the result is
provably `Ok`. -/
def unwrapRef (r : JsonResult JsonValue) : JsonValue :=
  match r with
  | .ok v => v
  | .error _ => JsonValue.Null

/-- `JsonValue::with` (lines 155-169). On an `Object`: insert `key -> Null`
when `key` is absent (`if !btree.contains_key(key) { btree.insert(key, Null) }`),
then return `btree.get_mut(key).unwrap()`. On any other variant:
`*self = JsonValue::new_object(); self.put(key, Null).unwrap();
return self.get_mut(key).unwrap()`. The result is the new state of `self`
paired with the value the returned `&mut` reference points at. -/
def JsonValue.with_ (self : JsonValue) (key : Text) : JsonValue × JsonValue :=
  match self with
  | .Object btree =>
      let btree' := if btreeContains key btree then btree
                    else btreeInsert key JsonValue.Null btree
      (.Object btree', unwrapRef ((JsonValue.Object btree').get_mut key).snd)
  | _ =>
      let s1 := (JsonValue.new_object.put key JsonValue.Null).fst
      (s1, unwrapRef (s1.get_mut key).snd)

/-- `JsonValue::push` (lines 173-182): on an `Array`, append `value` at the
end and return `Ok(())`; on any other variant, leave `self` unchanged and
return `Err(WrongType("Array"))`. -/
def JsonValue.push (self : JsonValue) (value : JsonValue) :
    JsonValue × JsonResult Unit :=
  match self with
  | .Array vec => (.Array (vec ++ [value]), .ok ())
  | _ => (self, .error (JsonError.wrong_type "Array"))

/-- `JsonValue::at` (lines 186-197); named `at_` because `at` is a reserved
word in Lean. -/
def JsonValue.at_ (self : JsonValue) (index : Nat) : JsonResult JsonValue :=
  match self with
  | .Array vec =>
      if h : index < vec.length then .ok (vec.get ⟨index, h⟩)
      else .error JsonError.ArrayIndexOutOfBounds
  | _ => .error (JsonError.wrong_type "Array")

/-- `JsonValue::at_mut` (lines 201-212): same logic as `at`; the method
itself never mutates `self`, so the state component is `self` unchanged. -/
def JsonValue.at_mut (self : JsonValue) (index : Nat) :
    JsonValue × JsonResult JsonValue :=
  match self with
  | .Array vec =>
      if h : index < vec.length then (self, .ok (vec.get ⟨index, h⟩))
      else (self, .error JsonError.ArrayIndexOutOfBounds)
  | _ => (self, .error (JsonError.wrong_type "Array"))

/-- `impl Index<usize> for JsonValue` (lines 225-231):
`self.at(index).unwrap_or(&NULL)`. -/
def JsonValue.indexUsize (self : JsonValue) (index : Nat) : JsonValue :=
  match self.at_ index with
  | .ok v => v
  | .error _ => NULL

/-- `impl Index<&str> for JsonValue` (lines 243-249):
`self.get(index).unwrap_or(&NULL)`. -/
def JsonValue.indexStr (self : JsonValue) (key : Text) : JsonValue :=
  match self.get key with
  | .ok v => v
  | .error _ => NULL

/-! ### Variant tags and the accessor surface -/

/-- The six variant tags, used to state variant-preservation and
API-surface facts. -/
inductive Variant where
  | String | Number | Boolean | Null | Object | Array
deriving DecidableEq, Repr

/-- The discriminant of a `JsonValue`. -/
def JsonValue.variant : JsonValue → Variant
  | .String _  => .String
  | .Number _  => .Number
  | .Boolean _ => .Boolean
  | .Null      => .Null
  | .Object _  => .Object
  | .Array _   => .Array

/-- The `as_<variant>` coercion surface of `impl JsonValue` in
src/src/value.rs: `true` exactly for the variants that have an `as_` typed
accessor there, namely `as_string` (line 42), `as_number` (line 56) and
`as_boolean` (line 86). The file defines no `as_null`, `as_object` or
`as_array`. -/
def hasAsAccessor : Variant → Bool
  | .String  => true
  | .Number  => true
  | .Boolean => true
  | _        => false

mutual

/-- Whether a NaN number payload occurs anywhere in the value — the payloads
on which the derived `PartialEq` (and hence `is`) is irreflexive. -/
def JsonValue.hasNaN : JsonValue → Bool
  | .Number x => F64.isNaN x
  | .Object es => JsonValue.hasNaNEntries es
  | .Array l => JsonValue.hasNaNList l
  | _ => false

/-- `hasNaN` over the values of an object entry list. -/
def JsonValue.hasNaNEntries : List (Text × JsonValue) → Bool
  | [] => false
  | (_, v) :: t => JsonValue.hasNaN v || JsonValue.hasNaNEntries t

/-- `hasNaN` over an array element list. -/
def JsonValue.hasNaNList : List JsonValue → Bool
  | [] => false
  | v :: t => JsonValue.hasNaN v || JsonValue.hasNaNList t

end

/-! ### Order lemmas for `ltChars` / `keyLt` -/

theorem ltChars_irrefl : ∀ a, ltChars a a = false
  | [] => rfl
  | c :: cs => by simp [ltChars, ltChars_irrefl cs]

theorem ltChars_asymm : ∀ a b, ltChars a b = true → ltChars b a = false
  | [], [] => by simp [ltChars]
  | [], _ :: _ => by simp [ltChars]
  | _ :: _, [] => by simp [ltChars]
  | c :: cs, d :: ds => by
    intro h1
    rcases lt_trichotomy c d with hcd | hcd | hcd
    · simp [ltChars, hcd, asymm hcd]
    · subst hcd
      simp only [ltChars, lt_irrefl, if_neg, if_false, not_false_eq_true] at h1 ⊢
      exact ltChars_asymm cs ds h1
    · simp [ltChars, hcd, asymm hcd] at h1

theorem ltChars_total : ∀ a b, ltChars a b = false → ltChars b a = false → a = b
  | [], [] => by simp
  | [], _ :: _ => by simp [ltChars]
  | _ :: _, [] => by simp [ltChars]
  | c :: cs, d :: ds => by
    intro h1 h2
    rcases lt_trichotomy c d with hcd | hcd | hcd
    · simp [ltChars, hcd] at h1
    · subst hcd
      simp only [ltChars, lt_irrefl, if_neg, if_false, not_false_eq_true] at h1 h2
      rw [ltChars_total cs ds h1 h2]
    · simp [ltChars, hcd, asymm hcd] at h2

theorem ltChars_trans : ∀ a b c, ltChars a b = true → ltChars b c = true →
    ltChars a c = true
  | [], [], _ => by simp [ltChars]
  | [], _ :: _, [] => by intro _ h2; simp [ltChars] at h2
  | [], _ :: _, _ :: _ => by simp [ltChars]
  | _ :: _, [], _ => by intro h1; simp [ltChars] at h1
  | _ :: _, _ :: _, [] => by intro _ h2; simp [ltChars] at h2
  | a :: as, b :: bs, c :: cs => by
    intro h1 h2
    rcases lt_trichotomy a b with hab | hab | hab
    · rcases lt_trichotomy b c with hbc | hbc | hbc
      · simp [ltChars, lt_trans hab hbc]
      · subst hbc; simp [ltChars, hab]
      · simp [ltChars, hbc, asymm hbc] at h2
    · subst hab
      simp only [ltChars, lt_irrefl, if_neg, if_false, not_false_eq_true] at h1
      rcases lt_trichotomy a c with hac | hac | hac
      · simp [ltChars, hac]
      · subst hac
        simp only [ltChars, lt_irrefl, if_neg, if_false, not_false_eq_true] at h2 ⊢
        exact ltChars_trans as bs cs h1 h2
      · simp [ltChars, hac, asymm hac] at h2
    · simp [ltChars, hab, asymm hab] at h1

theorem keyLt_irrefl (a : Text) : keyLt a a = false := ltChars_irrefl a.data

theorem keyLt_asymm {a b : Text} (h : keyLt a b = true) : keyLt b a = false :=
  ltChars_asymm a.data b.data h

theorem keyLt_trans {a b c : Text} (h1 : keyLt a b = true) (h2 : keyLt b c = true) :
    keyLt a c = true :=
  ltChars_trans a.data b.data c.data h1 h2

theorem keyLt_total {a b : Text} (h1 : keyLt a b = false) (h2 : keyLt b a = false) :
    a = b :=
  String.ext (ltChars_total a.data b.data h1 h2)

theorem ne_of_keyLt {a b : Text} (h : keyLt a b = true) : a ≠ b := by
  intro he
  subst he
  rw [keyLt_irrefl a] at h
  exact Bool.false_ne_true h

/-- Exactly one of `a < b`, `a = b`, `b < a` holds, bundled with the facts
each case gives about both comparisons. -/
theorem keyLt_trichotomy (a b : Text) :
    (keyLt a b = true ∧ a ≠ b ∧ keyLt b a = false)
    ∨ (keyLt a b = false ∧ a = b ∧ keyLt b a = false)
    ∨ (keyLt a b = false ∧ a ≠ b ∧ keyLt b a = true) := by
  rcases hab : keyLt a b with _ | _
  · rcases hba : keyLt b a with _ | _
    · exact Or.inr (Or.inl ⟨rfl, keyLt_total hab hba, rfl⟩)
    · refine Or.inr (Or.inr ⟨rfl, fun he => ?_, rfl⟩)
      subst he
      rw [keyLt_irrefl a] at hba
      exact Bool.false_ne_true hba
  · exact Or.inl ⟨rfl, ne_of_keyLt hab, keyLt_asymm hab⟩

/-! ### `BTreeMap` model lemmas -/

theorem btreeGet_insert_self (key : Text) (v : JsonValue) :
    ∀ m, btreeGet key (btreeInsert key v m) = some v
  | [] => by simp [btreeInsert, btreeGet]
  | (k, w) :: rest => by
    by_cases hlt : keyLt key k = true
    · simp [btreeInsert, hlt, btreeGet]
    · by_cases heq : key = k
      · subst heq
        simp [btreeInsert, hlt, btreeGet]
      · simp [btreeInsert, hlt, heq, btreeGet, btreeGet_insert_self key v rest]

theorem btreeGet_insert_ne {key' key : Text} (v : JsonValue) (h : key' ≠ key) :
    ∀ m, btreeGet key' (btreeInsert key v m) = btreeGet key' m
  | [] => by simp [btreeInsert, btreeGet, h]
  | (k, w) :: rest => by
    by_cases hlt : keyLt key k = true
    · simp [btreeInsert, hlt, btreeGet, h]
    · by_cases heq : key = k
      · subst heq
        simp [btreeInsert, hlt, btreeGet, h]
      · simp [btreeInsert, hlt, heq, btreeGet, btreeGet_insert_ne v h rest]

theorem btreeInsert_insert_self (key : Text) (v1 v2 : JsonValue) :
    ∀ m, btreeInsert key v2 (btreeInsert key v1 m) = btreeInsert key v2 m
  | [] => by simp [btreeInsert, keyLt_irrefl]
  | (k, w) :: rest => by
    by_cases hlt : keyLt key k = true
    · simp [btreeInsert, hlt, keyLt_irrefl]
    · by_cases heq : key = k
      · subst heq
        simp [btreeInsert, hlt, keyLt_irrefl]
      · simp [btreeInsert, hlt, heq, btreeInsert_insert_self key v1 v2 rest]

theorem btreeInsert_comm_of_lt {k1 k2 : Text} (v1 v2 : JsonValue)
    (h12 : keyLt k1 k2 = true) :
    ∀ m, btreeInsert k1 v1 (btreeInsert k2 v2 m)
       = btreeInsert k2 v2 (btreeInsert k1 v1 m)
  | [] => by
    simp [btreeInsert, h12, keyLt_asymm h12, Ne.symm (ne_of_keyLt h12)]
  | (k', w) :: rest => by
    rcases keyLt_trichotomy k1 k' with ⟨ha1, ha2, ha3⟩ | ⟨ha1, ha2, ha3⟩ | ⟨ha1, ha2, ha3⟩
    · rcases keyLt_trichotomy k2 k' with ⟨hb1, hb2, hb3⟩ | ⟨hb1, hb2, hb3⟩ | ⟨hb1, hb2, hb3⟩
      · simp [btreeInsert, h12, hb1, ha1, keyLt_asymm h12, Ne.symm (ne_of_keyLt h12)]
      · subst hb2
        simp [btreeInsert, h12, ha1, keyLt_irrefl, keyLt_asymm h12,
          Ne.symm (ne_of_keyLt h12)]
      · simp [btreeInsert, ha1, hb1, hb2, keyLt_asymm h12, Ne.symm (ne_of_keyLt h12)]
    · subst ha2
      simp [btreeInsert, keyLt_irrefl, keyLt_asymm h12, Ne.symm (ne_of_keyLt h12)]
    · have hc : keyLt k' k2 = true := keyLt_trans ha3 h12
      simp [btreeInsert, ha1, ha2, keyLt_asymm hc, Ne.symm (ne_of_keyLt hc),
        btreeInsert_comm_of_lt v1 v2 h12 rest]

theorem btreeInsert_comm {k1 k2 : Text} (v1 v2 : JsonValue) (h : k1 ≠ k2)
    (m : List (Text × JsonValue)) :
    btreeInsert k1 v1 (btreeInsert k2 v2 m)
      = btreeInsert k2 v2 (btreeInsert k1 v1 m) := by
  rcases keyLt_trichotomy k1 k2 with ⟨h1, _, _⟩ | ⟨_, h2, _⟩ | ⟨_, _, h3⟩
  · exact btreeInsert_comm_of_lt v1 v2 h1 m
  · exact absurd h2 h
  · exact (btreeInsert_comm_of_lt v2 v1 h3 m).symm

theorem countKey_insert_sorted (key : Text) (v : JsonValue) :
    ∀ {m}, SortedKeys m → countKey key (btreeInsert key v m) = 1
  | [], _ => by simp [btreeInsert, countKey]
  | (k, w) :: rest, hs => by
    rw [SortedKeys, List.pairwise_cons] at hs
    obtain ⟨hhead, hrest⟩ := hs
    rcases keyLt_trichotomy key k with ⟨ha1, ha2, ha3⟩ | ⟨ha1, ha2, ha3⟩ | ⟨ha1, ha2, ha3⟩
    · have hzero : countKey key ((k, w) :: rest) = 0 := by
        rw [countKey, List.countP_eq_zero]
        intro e he
        rcases List.mem_cons.mp he with rfl | he'
        · simpa using Ne.symm ha2
        · simp only [beq_iff_eq]
          intro hek
          have := hhead e he'
          rw [hek] at this
          rw [keyLt_asymm this] at ha1
          exact Bool.false_ne_true ha1
      rw [countKey] at hzero ⊢
      simp [btreeInsert, ha1, List.countP_cons, hzero]
    · subst ha2
      have hzero : countKey key rest = 0 := by
        rw [countKey, List.countP_eq_zero]
        intro e he
        simpa using Ne.symm (ne_of_keyLt (hhead e he))
      rw [countKey] at hzero ⊢
      simp [btreeInsert, ha1, keyLt_irrefl, List.countP_cons, hzero]
    · rw [countKey]
      have hrec := countKey_insert_sorted key v hrest
      rw [countKey] at hrec
      simp [btreeInsert, ha1, ha2, List.countP_cons, hrec, Ne.symm ha2]

/-! ### `beq` is reflexive away from NaN

`JsonValue.beq` is not propositional equality: `F64.ieeeEq` makes
`Number nan` unequal to itself and `Number negZero` equal to
`Number (finite 0)`. On NaN-free values it is at least reflexive, which is
what key-order-irrelevance of object equality rests on. -/

mutual

theorem JsonValue.beq_refl_of_not_nan :
    ∀ v : JsonValue, JsonValue.hasNaN v = false → JsonValue.beq v v = true
  | .String s, _ => by simp [JsonValue.beq]
  | .Number x, h => by
    cases x <;> simp_all [JsonValue.beq, JsonValue.hasNaN, F64.isNaN, F64.ieeeEq]
  | .Boolean b, _ => by simp [JsonValue.beq]
  | .Null, _ => rfl
  | .Object es, h => by
    rw [JsonValue.hasNaN] at h
    simpa [JsonValue.beq] using JsonValue.beqEntries_refl_of_not_nan es h
  | .Array l, h => by
    rw [JsonValue.hasNaN] at h
    simpa [JsonValue.beq] using JsonValue.beqList_refl_of_not_nan l h
termination_by v _ => sizeOf v

theorem JsonValue.beqEntries_refl_of_not_nan :
    ∀ es : List (Text × JsonValue), JsonValue.hasNaNEntries es = false →
      JsonValue.beqEntries es es = true
  | [], _ => rfl
  | (k, v) :: t, h => by
    rw [JsonValue.hasNaNEntries, Bool.or_eq_false_iff] at h
    simp [JsonValue.beqEntries, JsonValue.beq_refl_of_not_nan v h.1,
      JsonValue.beqEntries_refl_of_not_nan t h.2]
termination_by es _ => sizeOf es

theorem JsonValue.beqList_refl_of_not_nan :
    ∀ l : List JsonValue, JsonValue.hasNaNList l = false →
      JsonValue.beqList l l = true
  | [], _ => rfl
  | v :: t, h => by
    rw [JsonValue.hasNaNList, Bool.or_eq_false_iff] at h
    simp [JsonValue.beqList, JsonValue.beq_refl_of_not_nan v h.1,
      JsonValue.beqList_refl_of_not_nan t h.2]
termination_by l _ => sizeOf l

end

/-- `btreeInsert` introduces no NaN when neither the map nor the inserted
value holds one. -/
theorem hasNaNEntries_insert (k : Text) (v : JsonValue) :
    ∀ m, JsonValue.hasNaNEntries m = false → JsonValue.hasNaN v = false →
      JsonValue.hasNaNEntries (btreeInsert k v m) = false
  | [], _, hv => by simp [btreeInsert, JsonValue.hasNaNEntries, hv]
  | (k', w) :: rest, hm, hv => by
    rw [JsonValue.hasNaNEntries, Bool.or_eq_false_iff] at hm
    by_cases hlt : keyLt k k' = true
    · simp [btreeInsert, hlt, JsonValue.hasNaNEntries, hv, hm.1, hm.2]
    · by_cases heq : k = k'
      · subst heq
        simp [btreeInsert, hlt, JsonValue.hasNaNEntries, hv, hm.2]
      · simp [btreeInsert, hlt, heq, JsonValue.hasNaNEntries, hm.1,
          hasNaNEntries_insert k v rest hm.2 hv]

/-! ### Small facts about the operations -/

/-- `get_mut` never mutates `self`. -/
theorem get_mut_fst (v : JsonValue) (k : Text) : (v.get_mut k).fst = v := by
  cases v <;> simp [JsonValue.get_mut]
  case Object m => rcases btreeGet k m with _ | w <;> simp

/-- `at_mut` never mutates `self`. -/
theorem at_mut_fst (v : JsonValue) (i : Nat) : (v.at_mut i).fst = v := by
  cases v <;> simp [JsonValue.at_mut]
  case Array l => by_cases h : i < l.length <;> simp [h]

/-! ## The claims -/

/-- C1: `with(k)` on an `Object` lacking `k` inserts `k -> Null` and returns a
reference to that `Null`; on an `Object` already mapping `k` to `w` it leaves
the map unchanged and returns a reference to `w`; on any non-`Object` value it
destructively replaces `self` with a fresh `Object` holding exactly the single
entry `k -> Null`, discarding the prior contents. -/
theorem C1_with_get_or_create (v : JsonValue) (m : List (Text × JsonValue))
    (k : Text) (w : JsonValue) :
    (btreeGet k m = none →
      (JsonValue.Object m).with_ k
        = (JsonValue.Object (btreeInsert k JsonValue.Null m), JsonValue.Null))
    ∧ (btreeGet k m = some w →
      (JsonValue.Object m).with_ k = (JsonValue.Object m, w))
    ∧ (v.is_object = false →
      v.with_ k = (JsonValue.Object [(k, JsonValue.Null)], JsonValue.Null)) := by
  refine ⟨fun h => ?_, fun h => ?_, fun h => ?_⟩
  · simp [JsonValue.with_, btreeContains, h, JsonValue.get_mut,
      btreeGet_insert_self, unwrapRef]
  · simp [JsonValue.with_, btreeContains, h, JsonValue.get_mut, unwrapRef]
  · cases v <;> simp_all [JsonValue.with_, JsonValue.is_object, JsonValue.put,
      JsonValue.new_object, JsonValue.get_mut, btreeInsert, btreeGet, unwrapRef]

/-- Witness for C1 at concrete inputs: create-on-missing, keep-on-present,
and the data-loss replacement of `Number(5)`. -/
theorem C1_with_get_or_create_witness :
    ((JsonValue.Object []).with_ "k"
      = (JsonValue.Object [("k", JsonValue.Null)], JsonValue.Null))
    ∧ ((JsonValue.Object [("k", JsonValue.String "v")]).with_ "k"
      = (JsonValue.Object [("k", JsonValue.String "v")], JsonValue.String "v"))
    ∧ ((JsonValue.Number (F64.finite 5)).with_ "k"
      = (JsonValue.Object [("k", JsonValue.Null)], JsonValue.Null)) :=
  ⟨(C1_with_get_or_create JsonValue.Null [] "k" JsonValue.Null).1 rfl,
   (C1_with_get_or_create JsonValue.Null [("k", JsonValue.String "v")] "k"
      (JsonValue.String "v")).2.1 rfl,
   (C1_with_get_or_create (JsonValue.Number (F64.finite 5)) [] "k" JsonValue.Null).2.2 rfl⟩

/-- C2 as stated is false: the navigation/mutation operations include `with`,
and `with("k")` on `Number(5)` changes the variant tag from `Number` to
`Object`. -/
theorem C2_counterexample :
    ((JsonValue.Number (F64.finite 5)).with_ "k").fst.variant ≠ (JsonValue.Number (F64.finite 5)).variant := by
  decide

/-- C2 amended: `put`, `get_mut`, `push` and `at_mut` never change the variant
tag of `v`, whether they succeed or fail; `with` preserves the variant tag
when `v` is an `Object` (on a non-`Object` it replaces `v` with an `Object`,
as C1 records). -/
theorem C2_variant_preserved (v : JsonValue) (k : Text) (w : JsonValue) (i : Nat) :
    ((v.put k w).fst.variant = v.variant)
    ∧ ((v.get_mut k).fst.variant = v.variant)
    ∧ ((v.push w).fst.variant = v.variant)
    ∧ ((v.at_mut i).fst.variant = v.variant)
    ∧ (v.is_object = true → (v.with_ k).fst.variant = v.variant) := by
  refine ⟨?_, ?_, ?_, ?_, fun h => ?_⟩
  · cases v <;> simp [JsonValue.put, JsonValue.variant]
  · rw [get_mut_fst]
  · cases v <;> simp [JsonValue.push, JsonValue.variant]
  · rw [at_mut_fst]
  · cases v <;> simp_all [JsonValue.with_, JsonValue.is_object, JsonValue.variant]

/-- Witness for C2 amended at concrete inputs, discharging the
`is_object` hypothesis. -/
theorem C2_variant_preserved_witness :
    ((JsonValue.Object []).with_ "k").fst.variant = (JsonValue.Object []).variant :=
  (C2_variant_preserved (JsonValue.Object []) "k" JsonValue.Null 0).2.2.2.2 rfl

/-- C3: the indexed reads never fail: whenever `get(key)` (resp. `at(index)`)
returns an error — wrong variant, missing key, or out-of-range index — the
indexed read returns the `NULL` singleton instead; when they succeed, the
indexed read returns the same value. -/
theorem C3_index_never_fails (v : JsonValue) (k : Text) (i : Nat) (w : JsonValue) :
    (v.get k = .ok w → v.indexStr k = w)
    ∧ ((∃ e, v.get k = .error e) → v.indexStr k = NULL)
    ∧ (v.at_ i = .ok w → v.indexUsize i = w)
    ∧ ((∃ e, v.at_ i = .error e) → v.indexUsize i = NULL) := by
  refine ⟨fun h => ?_, fun ⟨e, h⟩ => ?_, fun h => ?_, fun ⟨e, h⟩ => ?_⟩
  · simp [JsonValue.indexStr, h]
  · simp [JsonValue.indexStr, h]
  · simp [JsonValue.indexUsize, h]
  · simp [JsonValue.indexUsize, h]

/-- Witness for C3 at concrete inputs: a present key, a read on a scalar,
an in-range index and an out-of-range index. -/
theorem C3_index_never_fails_witness :
    ((JsonValue.Object [("a", JsonValue.Number (F64.finite 1))]).indexStr "a" = JsonValue.Number (F64.finite 1))
    ∧ ((JsonValue.Number (F64.finite 5)).indexStr "a" = NULL)
    ∧ ((JsonValue.Array [JsonValue.Boolean true]).indexUsize 0 = JsonValue.Boolean true)
    ∧ ((JsonValue.Array []).indexUsize 3 = NULL) :=
  ⟨(C3_index_never_fails (JsonValue.Object [("a", JsonValue.Number (F64.finite 1))]) "a" 0
      (JsonValue.Number (F64.finite 1))).1 rfl,
   (C3_index_never_fails (JsonValue.Number (F64.finite 5)) "a" 0 JsonValue.Null).2.1
      ⟨JsonError.wrong_type "Object", rfl⟩,
   (C3_index_never_fails (JsonValue.Array [JsonValue.Boolean true]) "a" 0
      (JsonValue.Boolean true)).2.2.1 rfl,
   (C3_index_never_fails (JsonValue.Array []) "a" 3 JsonValue.Null).2.2.2
      ⟨JsonError.ArrayIndexOutOfBounds, rfl⟩⟩

/-- C4 as stated is false: it asserts a typed accessor `as_<V>()` for every
one of the six variants, but the `impl JsonValue` block of src/src/value.rs
defines only `as_string`, `as_number` and `as_boolean` — there is no
`as_null`, `as_object` or `as_array`. -/
theorem C4_counterexample :
    hasAsAccessor Variant.Null = false ∧ hasAsAccessor Variant.Object = false
    ∧ hasAsAccessor Variant.Array = false := by
  decide

/-- C4 amended: for each of the three variants String, Number and Boolean a
typed accessor `as_<V>()` exists; it succeeds with the payload exactly when
`is_<V>()` is true and on mismatch fails with `WrongType` carrying the name
of the requested variant. The other three variants have no typed accessor. -/
theorem C4_as_iff_is (v : JsonValue) :
    (hasAsAccessor Variant.String = true ∧ hasAsAccessor Variant.Number = true
      ∧ hasAsAccessor Variant.Boolean = true ∧ hasAsAccessor Variant.Null = false
      ∧ hasAsAccessor Variant.Object = false ∧ hasAsAccessor Variant.Array = false)
    ∧ ((v.as_string).isOk = v.is_string)
    ∧ ((v.as_number).isOk = v.is_number)
    ∧ ((v.as_boolean).isOk = v.is_boolean)
    ∧ (v.is_string = false → v.as_string = .error (JsonError.WrongType "String"))
    ∧ (v.is_number = false → v.as_number = .error (JsonError.WrongType "Number"))
    ∧ (v.is_boolean = false → v.as_boolean = .error (JsonError.WrongType "Boolean"))
    ∧ (∀ s, v = JsonValue.String s → v.as_string = .ok s)
    ∧ (∀ n, v = JsonValue.Number n → v.as_number = .ok n)
    ∧ (∀ b, v = JsonValue.Boolean b → v.as_boolean = .ok b) := by
  refine ⟨by decide, ?_, ?_, ?_, fun h => ?_, fun h => ?_, fun h => ?_,
    fun s hs => ?_, fun n hn => ?_, fun b hb => ?_⟩
  · cases v <;> rfl
  · cases v <;> rfl
  · cases v <;> rfl
  · cases v <;> simp_all [JsonValue.is_string, JsonValue.as_string, JsonError.wrong_type]
  · cases v <;> simp_all [JsonValue.is_number, JsonValue.as_number, JsonError.wrong_type]
  · cases v <;> simp_all [JsonValue.is_boolean, JsonValue.as_boolean, JsonError.wrong_type]
  · subst hs; rfl
  · subst hn; rfl
  · subst hb; rfl

/-- Witness for C4 amended: every hypothesis-bearing clause applied at a
concrete value. -/
theorem C4_as_iff_is_witness :
    ((JsonValue.Number (F64.finite 5)).as_string = .error (JsonError.WrongType "String"))
    ∧ ((JsonValue.String "x").as_number = .error (JsonError.WrongType "Number"))
    ∧ (JsonValue.Null.as_boolean = .error (JsonError.WrongType "Boolean"))
    ∧ ((JsonValue.String "x").as_string = .ok "x")
    ∧ ((JsonValue.Number (F64.finite 5)).as_number = .ok (F64.finite 5))
    ∧ ((JsonValue.Boolean true).as_boolean = .ok true) :=
  ⟨(C4_as_iff_is (JsonValue.Number (F64.finite 5))).2.2.2.2.1 rfl,
   (C4_as_iff_is (JsonValue.String "x")).2.2.2.2.2.1 rfl,
   (C4_as_iff_is JsonValue.Null).2.2.2.2.2.2.1 rfl,
   (C4_as_iff_is (JsonValue.String "x")).2.2.2.2.2.2.2.1 "x" rfl,
   (C4_as_iff_is (JsonValue.Number (F64.finite 5))).2.2.2.2.2.2.2.2.1 (F64.finite 5) rfl,
   (C4_as_iff_is (JsonValue.Boolean true)).2.2.2.2.2.2.2.2.2 true rfl⟩

/-- C5: put-then-get round trip — on any `Object`, `put(k, v)` succeeds and a
subsequent `get(k)` returns `Ok` with exactly `v`. -/
theorem C5_put_get_round_trip (m : List (Text × JsonValue)) (k : Text)
    (v : JsonValue) :
    (((JsonValue.Object m).put k v).snd = .ok ())
    ∧ (((JsonValue.Object m).put k v).fst.get k = .ok v) := by
  constructor
  · rfl
  · simp [JsonValue.put, JsonValue.get, btreeGet_insert_self]

/-- C6: overwrite semantics of `put` — putting `k` twice leaves the object in
exactly the state a single `put` of the second value produces, with exactly
one entry for `k`, mapped to `v2`, and the same number of entries as the
single insertion. -/
theorem C6_put_overwrite (m : List (Text × JsonValue)) (k : Text)
    (v1 v2 : JsonValue) (hs : SortedKeys m) :
    ((((JsonValue.Object m).put k v1).fst.put k v2).fst
      = ((JsonValue.Object m).put k v2).fst)
    ∧ ((((JsonValue.Object m).put k v1).fst.put k v2).fst.get k = .ok v2)
    ∧ (countKey k (btreeInsert k v2 (btreeInsert k v1 m)) = 1)
    ∧ ((btreeInsert k v2 (btreeInsert k v1 m)).length
      = (btreeInsert k v2 m).length) := by
  refine ⟨?_, ?_, ?_, ?_⟩
  · simp [JsonValue.put, btreeInsert_insert_self]
  · simp [JsonValue.put, JsonValue.get, btreeGet_insert_self]
  · rw [btreeInsert_insert_self]
    exact countKey_insert_sorted k v2 hs
  · rw [btreeInsert_insert_self]

/-- Witness for C6 on a concrete sorted object. -/
theorem C6_put_overwrite_witness :
    ((((JsonValue.Object [("b", JsonValue.Number (F64.finite 2))]).put "a"
        (JsonValue.Number (F64.finite 1))).fst.put "a" (JsonValue.Number (F64.finite 7))).fst
      = ((JsonValue.Object [("b", JsonValue.Number (F64.finite 2))]).put "a"
        (JsonValue.Number (F64.finite 7))).fst)
    ∧ (countKey "a" (btreeInsert "a" (JsonValue.Number (F64.finite 7))
        (btreeInsert "a" (JsonValue.Number (F64.finite 1)) [("b", JsonValue.Number (F64.finite 2))])) = 1) :=
  ⟨(C6_put_overwrite [("b", JsonValue.Number (F64.finite 2))] "a" (JsonValue.Number (F64.finite 1))
      (JsonValue.Number (F64.finite 7)) (by simp [SortedKeys])).1,
   (C6_put_overwrite [("b", JsonValue.Number (F64.finite 2))] "a" (JsonValue.Number (F64.finite 1))
      (JsonValue.Number (F64.finite 7)) (by simp [SortedKeys])).2.2.1⟩

/-- C7: `at`/`at_mut` fail with `ArrayIndexOutOfBounds` at every index
`i >= n` on an `Array` of length `n`; `at(n-1)` succeeds when `n > 0`; on any
non-`Array` value both fail with `WrongType("Array")`. -/
theorem C7_at_bounds (l : List JsonValue) (i : Nat) (v : JsonValue) :
    (i ≥ l.length →
      (JsonValue.Array l).at_ i = .error JsonError.ArrayIndexOutOfBounds
      ∧ ((JsonValue.Array l).at_mut i).snd = .error JsonError.ArrayIndexOutOfBounds)
    ∧ (0 < l.length → ∃ w, (JsonValue.Array l).at_ (l.length - 1) = .ok w)
    ∧ (v.is_array = false →
      v.at_ i = .error (JsonError.WrongType "Array")
      ∧ (v.at_mut i).snd = .error (JsonError.WrongType "Array")) := by
  refine ⟨fun h => ?_, fun h => ?_, fun h => ?_⟩
  · have hn : ¬ i < l.length := Nat.not_lt.mpr h
    constructor <;> simp [JsonValue.at_, JsonValue.at_mut, hn]
  · have hn : l.length - 1 < l.length := Nat.sub_lt h Nat.one_pos
    exact ⟨l.get ⟨l.length - 1, hn⟩, by simp [JsonValue.at_, hn]⟩
  · cases v <;> simp_all [JsonValue.is_array, JsonValue.at_, JsonValue.at_mut,
      JsonError.wrong_type]

/-- Witness for C7 on concrete arrays and a concrete scalar. -/
theorem C7_at_bounds_witness :
    ((JsonValue.Array [JsonValue.Null]).at_ 1
      = .error JsonError.ArrayIndexOutOfBounds)
    ∧ (∃ w, (JsonValue.Array [JsonValue.Boolean true]).at_ 0 = .ok w)
    ∧ ((JsonValue.Number (F64.finite 5)).at_ 0 = .error (JsonError.WrongType "Array")) :=
  ⟨((C7_at_bounds [JsonValue.Null] 1 JsonValue.Null).1 (by decide)).1,
   by
     have h := (C7_at_bounds [JsonValue.Boolean true] 0 JsonValue.Null).2.1
       (by decide)
     simpa using h,
   ((C7_at_bounds [] 0 (JsonValue.Number (F64.finite 5))).2.2 rfl).1⟩

/-- C8: `push` preserves insertion order — each successful push appends the
value at the end without disturbing the existing elements, and pushing
`v1, v2, v3` onto an empty array yields `[v1, v2, v3]` with
`at(0) = v1`, `at(1) = v2`, `at(2) = v3`. -/
theorem C8_push_order (l : List JsonValue) (v v1 v2 v3 : JsonValue) (i : Nat) :
    (((JsonValue.Array l).push v).snd = .ok ())
    ∧ (((JsonValue.Array l).push v).fst = JsonValue.Array (l ++ [v]))
    ∧ (i < l.length →
      ((JsonValue.Array l).push v).fst.at_ i = (JsonValue.Array l).at_ i)
    ∧ (((JsonValue.Array l).push v).fst.at_ l.length = .ok v)
    ∧ ((((JsonValue.new_array.push v1).fst.push v2).fst.push v3).fst
      = JsonValue.Array [v1, v2, v3])
    ∧ ((((JsonValue.new_array.push v1).fst.push v2).fst.push v3).fst.at_ 0 = .ok v1)
    ∧ ((((JsonValue.new_array.push v1).fst.push v2).fst.push v3).fst.at_ 1 = .ok v2)
    ∧ ((((JsonValue.new_array.push v1).fst.push v2).fst.push v3).fst.at_ 2
      = .ok v3) := by
  refine ⟨rfl, rfl, fun h => ?_, ?_, rfl, rfl, rfl, rfl⟩
  · have h' : i < (l ++ [v]).length := by simp; omega
    simp [JsonValue.push, JsonValue.at_, h, h', List.getElem_append]
    omega
  · have h' : l.length < (l ++ [v]).length := by simp
    simp [JsonValue.push, JsonValue.at_, h', List.getElem_concat_length]

/-- Witness for C8: the element already stored at index 0 is undisturbed by a
push. -/
theorem C8_push_order_witness :
    ((JsonValue.Array [JsonValue.Number (F64.finite 1)]).push (JsonValue.Number (F64.finite 2))).fst.at_ 0
      = (JsonValue.Array [JsonValue.Number (F64.finite 1)]).at_ 0 :=
  (C8_push_order [JsonValue.Number (F64.finite 1)] (JsonValue.Number (F64.finite 2)) JsonValue.Null
    JsonValue.Null JsonValue.Null 0).2.2.1 (by decide)

/-- C9 as stated is false: `is` compares `Number` payloads by the derived
`PartialEq`, i.e. IEEE `==`, which is irreflexive at NaN. An object holding
the single entry `\"a\" -> Number(NaN)` compares unequal through `is` even to
an object holding literally the same entry, and the insertion-order scenario
fails the same way as soon as one of the values is a NaN. -/
theorem C9_counterexample :
    (JsonValue.is (JsonValue.Object [("a", JsonValue.Number F64.nan)])
      (JsonValue.Object [("a", JsonValue.Number F64.nan)]) = false)
    ∧ (JsonValue.is
        ((JsonValue.new_object.put "a" (JsonValue.Number F64.nan)).fst.put "b"
          (JsonValue.Number (F64.finite 2))).fst
        ((JsonValue.new_object.put "b" (JsonValue.Number (F64.finite 2))).fst.put "a"
          (JsonValue.Number F64.nan)).fst = false) := by
  decide

/-- C9 amended: for objects holding the same key-to-value entries and
containing no NaN number payload, `is` returns true regardless of the order
in which the keys were inserted (a NaN entry makes an object compare unequal
even to an identically built one); the comparison is recursive,
element-by-element on variant tag and payload, with `Number` payloads
compared by IEEE `==`. -/
theorem C9_structural_equality (m es es' : List (Text × JsonValue))
    (k1 k2 k k' : Text) (v1 v2 w x u u' : JsonValue) (t t' : List JsonValue)
    (a b : F64) :
    (JsonValue.hasNaN w = false → JsonValue.is w w = true)
    ∧ (JsonValue.hasNaNEntries m = false → JsonValue.hasNaN v1 = false →
      JsonValue.hasNaN v2 = false → k1 ≠ k2 →
      JsonValue.is ((((JsonValue.Object m).put k1 v1).fst.put k2 v2).fst)
        ((((JsonValue.Object m).put k2 v2).fst.put k1 v1).fst) = true)
    ∧ (JsonValue.is (JsonValue.Number a) (JsonValue.Number b) = F64.ieeeEq a b)
    ∧ (JsonValue.is (JsonValue.Array (u :: t)) (JsonValue.Array (u' :: t'))
      = (JsonValue.is u u'
          && JsonValue.is (JsonValue.Array t) (JsonValue.Array t')))
    ∧ (JsonValue.is (JsonValue.Object ((k, w) :: es))
        (JsonValue.Object ((k', x) :: es'))
      = ((k == k') && JsonValue.is w x
          && JsonValue.is (JsonValue.Object es) (JsonValue.Object es'))) := by
  refine ⟨fun hw => JsonValue.beq_refl_of_not_nan w hw,
    fun hm h1 h2 hk => ?_, rfl, rfl, rfl⟩
  simp only [JsonValue.put, JsonValue.is]
  rw [btreeInsert_comm v2 v1 (Ne.symm hk) m]
  refine JsonValue.beq_refl_of_not_nan (JsonValue.Object _) ?_
  rw [JsonValue.hasNaN]
  exact hasNaNEntries_insert k1 v1 _ (hasNaNEntries_insert k2 v2 m hm h2) h1

/-- Witness for C9 amended: a NaN-free object is `is`-equal to itself, and
`Object{"a":1,"b":2}` built in the two insertion orders compares equal
through `is`; every hypothesis discharged concretely. -/
theorem C9_structural_equality_witness :
    (JsonValue.is (JsonValue.Object [("a", JsonValue.Number (F64.finite 1))])
      (JsonValue.Object [("a", JsonValue.Number (F64.finite 1))]) = true)
    ∧ (JsonValue.is
        ((JsonValue.new_object.put "a" (JsonValue.Number (F64.finite 1))).fst.put "b"
          (JsonValue.Number (F64.finite 2))).fst
        ((JsonValue.new_object.put "b" (JsonValue.Number (F64.finite 2))).fst.put "a"
          (JsonValue.Number (F64.finite 1))).fst = true) :=
  ⟨(C9_structural_equality [] [] [] "a" "b" "" ""
      (JsonValue.Number (F64.finite 1)) (JsonValue.Number (F64.finite 2))
      (JsonValue.Object [("a", JsonValue.Number (F64.finite 1))]) JsonValue.Null
      JsonValue.Null JsonValue.Null [] [] F64.nan F64.nan).1 rfl,
   (C9_structural_equality [] [] [] "a" "b" "" ""
      (JsonValue.Number (F64.finite 1)) (JsonValue.Number (F64.finite 2))
      JsonValue.Null JsonValue.Null JsonValue.Null JsonValue.Null [] []
      F64.nan F64.nan).2.1 rfl rfl rfl (by decide)⟩

/-- C10: the two deprecated predicates — `is_true` is true exactly on
`Boolean(true)`, `is_false` exactly on `Boolean(false)`, and on every
non-Boolean value both return `false` (they are not negations of each
other). -/
theorem C10_is_true_is_false (v : JsonValue) :
    (v.is_true = true ↔ v = JsonValue.Boolean true)
    ∧ (v.is_false = true ↔ v = JsonValue.Boolean false)
    ∧ (v.is_boolean = false → v.is_true = false ∧ v.is_false = false) := by
  refine ⟨?_, ?_, fun h => ?_⟩
  · cases v with
    | Boolean b => cases b <;> simp [JsonValue.is_true]
    | _ => simp [JsonValue.is_true]
  · cases v with
    | Boolean b => cases b <;> simp [JsonValue.is_false]
    | _ => simp [JsonValue.is_false]
  · cases v <;> simp_all [JsonValue.is_boolean, JsonValue.is_true, JsonValue.is_false]

/-- Witness for C10 on a non-Boolean value. -/
theorem C10_is_true_is_false_witness :
    (JsonValue.Number (F64.finite 5)).is_true = false ∧ (JsonValue.Number (F64.finite 5)).is_false = false :=
  (C10_is_true_is_false (JsonValue.Number (F64.finite 5))).2.2 rfl

end RustJson
